import Mathlib

/-!
Shallow embedding of django-i18n-model (src/i18n_model/models.py and
src/i18n_model/templatetags/i18n_model.py).

A translation row carries a reference to its source record (`i18n_source`,
modelled by its primary key rendered as a string), a language code
(`i18n_language`) and the copied content attributes (an association list from
attribute name to value, mirroring Python's per-object attribute dictionary;
attribute keys are assumed to name content fields of the model — Django would
raise a TypeError for unknown keyword arguments on create).  The database
backing one translation model is a list of such rows.
-/

namespace I18nModel

/-- Association-list lookup, modelling Python dictionary / attribute access. -/
def getA : List (String × String) → String → Option String
  | [], _ => none
  | (k, v) :: t, q => if k = q then some v else getA t q

/-- Association-list update, modelling Python `setattr` / dictionary
assignment: at most one binding per key, later assignments overwrite. -/
def setA : List (String × String) → String → String → List (String × String)
  | [], k, v => [(k, v)]
  | (k0, v0) :: t, k, v => if k0 = k then (k, v) :: t else (k0, v0) :: setA t k v

/-- One persisted translation row. -/
structure Row where
  source : String
  language : String
  attrs : List (String × String)
deriving DecidableEq, Repr

/-- `setattr(translation, key, value)`: the two structural columns are real
attributes of the object, every other key lands in the attribute dict. -/
def setAttrRow (r : Row) (k v : String) : Row :=
  if k = "i18n_source" then { r with source := v }
  else if k = "i18n_language" then { r with language := v }
  else { r with attrs := setA r.attrs k v }

/-- `getattr(translation, key)` on the same attribute space. -/
def getAttrRow (r : Row) (k : String) : Option String :=
  if k = "i18n_source" then some r.source
  else if k = "i18n_language" then some r.language
  else getA r.attrs k

/-- `for key, value in kwargs.items(): setattr(translation, key, value)`. -/
def applyUpdates (r : Row) (updates : List (String × String)) : Row :=
  updates.foldl (fun acc u => setAttrRow acc u.1 u.2) r

/-- The filter predicate `i18n_source=source, i18n_language=language`. -/
def rowMatches (r : Row) (src lg : String) : Bool :=
  (r.source == src) && (r.language == lg)

/-- The two column names handled structurally by the model. -/
def specialKey (k : String) : Bool :=
  (k == "i18n_source") || (k == "i18n_language")

/-- Exceptions surfaced by the ORM operations used in `translate`. -/
inductive DBErr
  | doesNotExist
  | multipleReturned
  | typeError
deriving DecidableEq, Repr

/-- `cls.objects.get(i18n_source=source, i18n_language=language)`:
zero matches raise DoesNotExist, more than one raise MultipleObjectsReturned. -/
def objectsGet (db : List Row) (src lg : String) : Except DBErr Row :=
  match db.filter (fun r => rowMatches r src lg) with
  | [] => .error .doesNotExist
  | [r] => .ok r
  | _ => .error .multipleReturned

/-- `cls.objects.create(i18n_source=source, i18n_language=language, **kwargs)`:
a kwarg repeating one of the two explicit keyword arguments raises TypeError;
otherwise the new row is persisted (appended) and returned. -/
def objectsCreate (db : List Row) (src lg : String)
    (updates : List (String × String)) : Except DBErr (List Row × Row) :=
  if updates.any (fun u => specialKey u.1) then .error .typeError
  else
    let r := applyUpdates ⟨src, lg, []⟩ updates
    .ok (db ++ [r], r)

/-- `translation.save()`: persist the in-memory object over its stored row.
The stored row is the unique row matching `(src, lg)` (the row `translate`
looked up), so replacing by that match coincides with Django's save-by-pk. -/
def saveRow (db : List Row) (src lg : String) (r2 : Row) : List Row :=
  db.map (fun x => if rowMatches x src lg then r2 else x)

/-- `I18nModel.translate(source, language, **kwargs)` from models.py:
with no kwargs it is a pure lookup; with kwargs it updates the existing row
in place when the lookup succeeds, creates a fresh row when the lookup raises
DoesNotExist, and lets MultipleObjectsReturned propagate. -/
def translate (db : List Row) (src lg : String)
    (updates : List (String × String)) : Except DBErr (List Row × Row) :=
  if updates.isEmpty then
    (objectsGet db src lg).map (fun r => (db, r))
  else
    match objectsGet db src lg with
    | .ok r =>
        let r2 := applyUpdates r updates
        .ok (saveRow db src lg r2, r2)
    | .error .doesNotExist => objectsCreate db src lg updates
    | .error e => .error e

/-- `language_code or get_language()`: Python's `or` falls back on falsy
values, so both a missing argument and the empty string select the current
active language. -/
def effLang (code : Option String) (current : String) : String :=
  match code with
  | none => current
  | some s => if s = "" then current else s

/-- `I18nManager.get_by_lang`'s underlying `get(i18n_language=code)` on a
related queryset, and the body of the generated per-language accessors:
the rows of one source object filtered by language. -/
def filterLang (rows : List Row) (code : String) : List Row :=
  rows.filter (fun r => r.language == code)

/-- The `translate` template tag (templatetags/i18n_model.py): resolve the
language, hand back the original object (`Sum.inl ()`) when that language is
the default, otherwise try `obj.translations.get_by_lang(language)` and fall
back to the original object on any exception (zero or several matches). -/
def tagTranslate (translations : List Row) (language : Option String)
    (current dflt : String) : Sum Unit Row :=
  let lg := effLang language current
  if lg = dflt then .inl ()
  else
    match filterLang translations lg with
    | [r] => .inr r
    | _ => .inl ()

/-- `language_code.replace('-', '_')` — `str.replace` with a one-character
pattern substitutes character by character. -/
def replaceDash (s : String) : String :=
  String.mk (s.data.map (fun c => if c = '-' then '_' else c))

/-- `I18nManager.__new__`: `for language in settings.LANGUAGES:
setattr(cls, language[0].replace('-', '_'), create_language_method(language[0]))`.
The class dictionary is modelled as an association list from accessor name to
the language code the generated method filters on; a later `setattr` with the
same name overwrites the earlier binding. -/
def buildAccessors (languages : List (String × String)) : List (String × String) :=
  languages.foldl (fun acc l => setA acc (replaceDash l.1) l.1) []

/-- Calling the accessor named `name` on the manager: look the method up on
the class, then run its body `self.filter(i18n_language=code)`; `none` when no
such accessor was generated. -/
def accessorCall (languages : List (String × String)) (name : String)
    (db : List Row) : Option (List Row) :=
  (getA (buildAccessors languages) name).map (filterLang db)

/-- `I18nManager.lang(language_code=None)`:
`self.filter(i18n_language=language_code or get_language())`. -/
def lang (db : List Row) (code : Option String) (current : String) : List Row :=
  filterLang db (effLang code current)

/-!  The metaclass `I18nBase.__new__`: source resolution, field copying and
uniqueness-constraint computation, modelled over a plain description of a
Django model class. -/

/-- The declared kind of a source-model field; `other` stands for every field
class outside the three `type(f) in [TextField, CharField, SlugField]`
checks (including their subclasses, which the exact-type test rejects). -/
inductive FType
  | charField
  | textField
  | slugField
  | other
deriving DecidableEq, Repr

/-- One field declaration of a Django model: its name, its class and its
`_unique` flag (the remaining declaration data rides along unchanged under
`copy.deepcopy` and is irrelevant to the claims, so it is not modelled). -/
structure Field where
  name : String
  ftype : FType
  unique : Bool
deriving DecidableEq, Repr

/-- A source model: its class name and `_meta.fields` in declaration order. -/
structure SModel where
  name : String
  fields : List Field
deriving DecidableEq, Repr

/-- The `source_model` Meta option: either a direct class reference or a
string (`'app.Model'` or bare `'Class'`). -/
inductive SourceSpec
  | direct (m : SModel)
  | byName (s : String)
deriving DecidableEq, Repr

/-- One element of a declared `unique_together` tuple: a bare field-name
string or a tuple of field names.  (A declared tuple whose first element is a
string but which also nests tuples would be wrapped into a deeper nesting
this two-level model cannot express; Django rejects such declarations and no
behaviour settled here depends on them — see `utStep1`.) -/
inductive UTItem
  | str (s : String)
  | tup (fields : List String)
deriving DecidableEq, Repr

/-- Exceptions raised during class construction in `I18nBase.__new__`. -/
inductive RErr
  | improperlyConfigured
  | attributeError
  | keyError
  | indexError
  | mixedDecl
deriving DecidableEq, Repr

/-- `get_model(app_label, model_name)` over a registry of installed models;
returns `None` when nothing is registered under that pair. -/
def getModelReg : List (String × String × SModel) → String → String → Option SModel
  | [], _, _ => none
  | (app, mdl, m) :: t, a, b =>
      if app = a ∧ mdl = b then some m else getModelReg t a b

/-- `get_class(classname, modulename)`: attribute lookup on the defining
module; `none` models the AttributeError path. -/
def getClassMod : List (String × SModel) → String → Option SModel
  | [], _ => none
  | (n, m) :: t, q => if n = q then some m else getClassMod t q

/-- Split a character list on a separator character, like
`source.split('.')` (always at least one part). -/
def splitOnChar (c : Char) : List Char → List (List Char)
  | [] => [[]]
  | a :: t =>
      let r := splitOnChar c t
      if a = c then [] :: r
      else
        match r with
        | [] => [[a]]
        | h :: t2 => (a :: h) :: t2

/-- The parts of `source.split('.')` as strings. -/
def dotParts (s : String) : List String :=
  (splitOnChar '.' s.data).map (fun cs => String.mk cs)

/-- `name.endswith('I18N')`. -/
def endsI18N (s : String) : Bool :=
  match s.data.reverse with
  | 'N' :: '8' :: '1' :: 'I' :: _ => true
  | _ => false

/-- `name[:-4]`. -/
def dropLast4 (s : String) : String :=
  String.mk (s.data.take (s.data.length - 4))

/-- The value held by the local variable `source` between the resolution
steps of `I18nBase.__new__`: `None`, a falsy empty string left untouched by
the string branch, or a resolved model class. -/
inductive SVal
  | noneV
  | emptyStr
  | found (m : SModel)
deriving DecidableEq, Repr

/-- Source resolution in `I18nBase.__new__` (models.py lines 84-127):
interpret a string `source_model` either as `'app.Model'` via `get_model`
(which yields `None` when absent, silently) or as a bare class name via
`get_class` (whose failure raises AttributeError); when `source` is still
`None` and the class name ends with `'I18N'`, fall back to resolving the name
with that suffix stripped; finally raise ImproperlyConfigured when `source`
is falsy. -/
def resolveSource (registry : List (String × String × SModel))
    (module : List (String × SModel)) (spec : Option SourceSpec)
    (name : String) : Except RErr SModel :=
  let s1 : Except RErr SVal :=
    match spec with
    | none => .ok .noneV
    | some (SourceSpec.direct m) => .ok (.found m)
    | some (SourceSpec.byName s) =>
        if s = "" then .ok .emptyStr
        else if s.data.contains '.' then
          match getModelReg registry ((dotParts s).headD "")
              (((dotParts s).drop 1).headD "") with
          | some m => .ok (.found m)
          | none => .ok .noneV
        else
          match getClassMod module s with
          | some m => .ok (.found m)
          | none => .error .attributeError
  match s1 with
  | .error e => .error e
  | .ok v =>
      let s2 : Except RErr SVal :=
        match v with
        | SVal.noneV =>
            if endsI18N name then
              match getClassMod module (dropLast4 name) with
              | some m => .ok (.found m)
              | none => .error .attributeError
            else .ok .noneV
        | w => .ok w
      match s2 with
      | .error e => .error e
      | .ok (SVal.found m) => .ok m
      | .ok _ => .error .improperlyConfigured

/-- `type(f) in [models.TextField, models.CharField, models.SlugField]`. -/
def textLike : FType → Bool
  | .textField => true
  | .charField => true
  | .slugField => true
  | .other => false

/-- The default field selection when no `translation_fields` were declared:
all text-like fields of the source, in declaration order. -/
def defaultFields (src : SModel) : List String :=
  (src.fields.filter (fun f => textLike f.ftype)).map Field.name

/-- The copy loop of `I18nBase.__new__` (models.py lines 148-159): walk the
source's fields in declaration order, deep-copy each whose name is listed,
clear `_unique` on the copy when it was set and record that name in
`unique_fields`.  Returns (copied fields, unique_fields). -/
def copyFields : List Field → List String → List Field × List String
  | [], _ => ([], [])
  | f :: rest, names =>
      let r := copyFields rest names
      if f.name ∈ names then
        if f.unique then
          ({ f with unique := false } :: r.1, f.name :: r.2)
        else (f :: r.1, r.2)
      else r

/-- The `(i18n_source, i18n_language)` pair as one constraint tuple. -/
def srcLangTup : UTItem := .tup ["i18n_source", "i18n_language"]

/-- The `unique_together` branch of `I18nBase.__new__` (models.py lines
161-172), before the demoted-unique constraints are appended: with no
declared value the pair becomes the sole constraint; a declared tuple whose
first element is a string is wrapped whole next to the pair; otherwise the
code runs `unique_together += ('i18n_source', 'i18n_language')`, which
extends the tuple with the two bare strings.  A declared empty tuple raises
IndexError at the `[0]` test; a mixed string/tuple declaration is outside
this two-level model (and rejected by Django) and maps to `mixedDecl`. -/
def utStep1 : Option (List UTItem) → Except RErr (List UTItem)
  | none => .ok [srcLangTup]
  | some [] => .error .indexError
  | some (UTItem.str s :: rest) =>
      match (rest.mapM (fun i => match i with
        | UTItem.str x => some x
        | UTItem.tup _ => none)) with
      | some ss => .ok [.tup (s :: ss), srcLangTup]
      | none => .error .mixedDecl
  | some (UTItem.tup t :: rest) =>
      .ok ((UTItem.tup t :: rest) ++ [.str "i18n_source", .str "i18n_language"])

/-- The full `unique_together` computation: the branch above followed by
`unique_together += (('i18n_language', field),)` for every demoted-unique
field (models.py lines 173-176). -/
def computeUniqueTogether (declared : Option (List UTItem))
    (uniqueFields : List String) : Except RErr (List UTItem) :=
  match utStep1 declared with
  | .error e => .error e
  | .ok base =>
      .ok (base ++ uniqueFields.map (fun f => UTItem.tup ["i18n_language", f]))

/-- The Meta options consulted by `I18nBase.__new__`; an absent
`translation_fields` and a declared empty one coincide (`getattr(..., [])`
followed by `if not fields`). -/
structure MetaOpts where
  source_model : Option SourceSpec
  translation_fields : List String
  unique_together : Option (List UTItem)
deriving DecidableEq, Repr

/-- The schema data `I18nBase.__new__` assembles for the new translation
model: the resolved source, the selected field names, the copied field
declarations, the demoted-unique names and the final `unique_together`.
(The `i18n_source` foreign key and the inherited `i18n_language` column are
added unconditionally and carry no claim-relevant computation.) -/
structure DerivedSchema where
  source : SModel
  usedNames : List String
  copiedFields : List Field
  demotedUnique : List String
  unique_together : List UTItem
deriving DecidableEq, Repr

/-- `I18nBase.__new__` for a class listing `I18nModel` among its bases:
a class body with no `Meta` at all raises KeyError at
`del attrs['Meta'].source_model`; otherwise the source is resolved, the
translated field names are selected (declared list, or all text-like source
fields), the fields are copied with uniqueness demoted, and the final
`unique_together` is computed. -/
def i18nNew (registry : List (String × String × SModel))
    (module : List (String × SModel)) (name : String)
    (meta : Option MetaOpts) : Except RErr DerivedSchema :=
  match meta with
  | none => .error .keyError
  | some m =>
      match resolveSource registry module m.source_model name with
      | .error e => .error e
      | .ok src =>
          let names :=
            if m.translation_fields = [] then defaultFields src
            else m.translation_fields
          let cp := copyFields src.fields names
          match computeUniqueTogether m.unique_together cp.2 with
          | .error e => .error e
          | .ok ut => .ok ⟨src, names, cp.1, cp.2, ut⟩

/-- `copy.deepcopy(field)` followed by the conditional `_unique = False`. -/
def demoteField (f : Field) : Field :=
  if f.unique then { f with unique := false } else f

/-!  Concrete model declarations used to evaluate the embedding. -/

/-- A source model with two text-like fields, neither unique. -/
def articleModel : SModel :=
  ⟨"Article", [⟨"title", .charField, false⟩, ⟨"body", .textField, false⟩]⟩

/-- Meta options declaring `unique_together = (('title', 'body'),)`, a tuple
of tuples, on the translation model. -/
def metaUT : MetaOpts :=
  { source_model := some (.direct articleModel), translation_fields := [],
    unique_together := some [UTItem.tup ["title", "body"]] }

/-- A one-field source model registered in a defining module. -/
def fooModel : SModel := ⟨"Foo", [⟨"title", .charField, false⟩]⟩

/-- A two-field source model for the explicit-field-list evaluation. -/
def pageModel : SModel :=
  ⟨"Page", [⟨"title", .charField, false⟩, ⟨"body", .textField, false⟩]⟩

/-- Meta options listing an explicit `translation_fields` that names `body`
and `title` in reversed order plus a name absent from the source. -/
def metaExplicitFields : MetaOpts :=
  { source_model := some (.direct pageModel),
    translation_fields := ["body", "title", "missing"],
    unique_together := none }

/-- A source field declared globally unique. -/
def slugFields : List Field := [⟨"slug", .slugField, true⟩]

/-- The constraint set derived for `slugFields` with nothing declared. -/
def utSlug : List UTItem := [srcLangTup, UTItem.tup ["i18n_language", "slug"]]

/-- The `LANGUAGES` setting of the spec's worked example, default `'en'`. -/
def languages3 : List (String × String) :=
  [("en", "English"), ("de", "German"), ("pt-br", "Portuguese")]

/-- A `LANGUAGES` setting in which two codes normalize to one accessor name. -/
def langsCex : List (String × String) := [("pt-br", "A"), ("pt_br", "B")]

/-- A `LANGUAGES` setting containing the empty language code. -/
def langsEmpty : List (String × String) := [("", "Empty")]

/-- A database holding one `pt-br` translation row. -/
def dbCex : List Row := [⟨"1", "pt-br", []⟩]

/-- An existing `de` translation row with two content attributes. -/
def rowDe : Row := ⟨"1", "de", [("title", "A"), ("body", "B")]⟩

/-- A database holding just `rowDe`. -/
def dbDe : List Row := [rowDe]

/-!  Helper lemmas about the association-list and row operations. -/

theorem specialKey_eq_false_iff (k : String) :
    specialKey k = false ↔ k ≠ "i18n_source" ∧ k ≠ "i18n_language" := by
  simp [specialKey]

theorem getA_setA_self (l : List (String × String)) (k v : String) :
    getA (setA l k v) k = some v := by
  induction l with
  | nil => simp [setA, getA]
  | cons p t ih =>
      by_cases h : p.1 = k
      · simp [setA, h, getA]
      · simp [setA, h, getA, ih]

theorem getA_setA_ne (l : List (String × String)) (k v q : String)
    (h : q ≠ k) : getA (setA l k v) q = getA l q := by
  have hk : k ≠ q := Ne.symm h
  induction l with
  | nil => simp [setA, getA, hk]
  | cons p t ih =>
      by_cases hp : p.1 = k
      · simp [setA, hp, getA, hk]
      · simp [setA, hp, getA, ih]

theorem setAttrRow_content (r : Row) (k v : String)
    (hk : specialKey k = false) :
    setAttrRow r k v = { r with attrs := setA r.attrs k v } := by
  obtain ⟨h1, h2⟩ := (specialKey_eq_false_iff k).mp hk
  simp [setAttrRow, h1, h2]

theorem getAttrRow_setAttrRow_ne (r : Row) (k v q : String) (h : q ≠ k) :
    getAttrRow (setAttrRow r k v) q = getAttrRow r q := by
  by_cases h1 : k = "i18n_source"
  · subst h1; simp [setAttrRow, getAttrRow, h]
  · by_cases h2 : k = "i18n_language"
    · subst h2
      by_cases hq1 : q = "i18n_source" <;>
        simp [setAttrRow, getAttrRow, h, hq1]
    · by_cases hq1 : q = "i18n_source" <;> by_cases hq2 : q = "i18n_language" <;>
        simp [setAttrRow, getAttrRow, h1, h2, hq1, hq2,
          getA_setA_ne r.attrs k v q h]

theorem getAttrRow_applyUpdates_not_mem (updates : List (String × String))
    (r : Row) (q : String) (h : q ∉ updates.map Prod.fst) :
    getAttrRow (applyUpdates r updates) q = getAttrRow r q := by
  induction updates generalizing r with
  | nil => rfl
  | cons u t ih =>
      simp only [List.map, List.mem_cons] at h
      push_neg at h
      calc getAttrRow (applyUpdates (setAttrRow r u.1 u.2) t) q
          = getAttrRow (setAttrRow r u.1 u.2) q := ih _ h.2
        _ = getAttrRow r q := getAttrRow_setAttrRow_ne r u.1 u.2 q h.1

theorem rowMatches_setAttrRow (r : Row) (k v src lg : String)
    (hk : specialKey k = false) :
    rowMatches (setAttrRow r k v) src lg = rowMatches r src lg := by
  rw [setAttrRow_content r k v hk]
  rfl

theorem filter_saveRow (db : List Row) (src lg : String) (r2 : Row)
    (h2 : rowMatches r2 src lg = true) :
    (saveRow db src lg r2).filter (fun x => rowMatches x src lg) =
      (db.filter (fun x => rowMatches x src lg)).map (fun _ => r2) := by
  induction db with
  | nil => rfl
  | cons x t ih =>
      by_cases hx : rowMatches x src lg <;>
        simp [saveRow, List.filter, hx, h2, ih] <;>
        simpa [saveRow] using ih

theorem translate_update_once (db : List Row) (src lg k v : String) (r : Row)
    (hk : specialKey k = false)
    (h : db.filter (fun x => rowMatches x src lg) = [r]) :
    translate db src lg [(k, v)] =
      .ok (saveRow db src lg (applyUpdates r [(k, v)]), applyUpdates r [(k, v)]) ∧
    (saveRow db src lg (applyUpdates r [(k, v)])).filter
        (fun x => rowMatches x src lg) = [applyUpdates r [(k, v)]] ∧
    getAttrRow (applyUpdates r [(k, v)]) k = some v ∧
    rowMatches (applyUpdates r [(k, v)]) src lg = true := by
  have hr : rowMatches r src lg = true := by
    have hmem : r ∈ db.filter (fun x => rowMatches x src lg) := by
      rw [h]; exact List.mem_singleton_self r
    have := List.of_mem_filter hmem
    simpa using this
  have happ : applyUpdates r [(k, v)] = setAttrRow r k v := rfl
  have hm : rowMatches (applyUpdates r [(k, v)]) src lg = true := by
    rw [happ, rowMatches_setAttrRow r k v src lg hk, hr]
  obtain ⟨hk1, hk2⟩ := (specialKey_eq_false_iff k).mp hk
  refine ⟨?_, ?_, ?_, hm⟩
  · simp [translate, objectsGet, h]
  · rw [filter_saveRow db src lg _ hm, h]
    rfl
  · rw [happ, setAttrRow_content r k v hk]
    simp [getAttrRow, hk1, hk2, getA_setA_self]

theorem getA_foldl_setA (ls : List (String × String))
    (acc : List (String × String)) (q : String) :
    getA (ls.foldl (fun a l => setA a (replaceDash l.1) l.1) acc) q =
      match ls.reverse.find? (fun l => replaceDash l.1 == q) with
      | some l => some l.1
      | none => getA acc q := by
  induction ls generalizing acc with
  | nil => rfl
  | cons p t ih =>
      rw [List.foldl_cons, ih, List.reverse_cons, List.find?_append]
      cases hfind : t.reverse.find? (fun l => replaceDash l.1 == q) with
      | some l => rfl
      | none =>
          by_cases hp : replaceDash p.1 = q
          · simp [List.find?, hp, Option.or, getA_setA_self]
          · simp only [List.find?, Option.or]
            have : (replaceDash p.1 == q) = false := by
              simpa using hp
            rw [this]
            simp [getA_setA_ne acc (replaceDash p.1) p.1 q (Ne.symm hp)]

theorem copyFields_mem (l : List Field) (names : List String) (f : Field)
    (hf : f ∈ l) (hu : f.unique = true) (hn : f.name ∈ names) :
    { f with unique := false } ∈ (copyFields l names).1 ∧
      f.name ∈ (copyFields l names).2 := by
  induction l with
  | nil => cases hf
  | cons g t ih =>
      rcases List.mem_cons.mp hf with hg | hmem
      · subst hg
        simp [copyFields, hn, hu]
      · obtain ⟨ih1, ih2⟩ := ih hmem
        by_cases hgn : g.name ∈ names
        · by_cases hgu : g.unique = true
          · simp [copyFields, hgn, hgu]
            exact ⟨Or.inr ih1, Or.inr ih2⟩
          · simp [copyFields, hgn, hgu]
            exact ⟨Or.inr ih1, ih2⟩
        · simpa [copyFields, hgn] using ⟨ih1, ih2⟩

theorem computeUT_mem (declared : Option (List UTItem)) (ufs : List String)
    (res : List UTItem) (x : String) (hx : x ∈ ufs)
    (hok : computeUniqueTogether declared ufs = .ok res) :
    UTItem.tup ["i18n_language", x] ∈ res := by
  unfold computeUniqueTogether at hok
  cases h1 : utStep1 declared with
  | error e => rw [h1] at hok; cases hok
  | ok base =>
      rw [h1] at hok
      have hres : res = base ++ ufs.map (fun f => UTItem.tup ["i18n_language", f]) := by
        cases hok; rfl
      rw [hres]
      exact List.mem_append_right base
        (List.mem_map_of_mem (fun f => UTItem.tup ["i18n_language", f]) hx)

theorem copyFields_fst (l : List Field) (names : List String) :
    (copyFields l names).1 =
      (l.filter (fun f => decide (f.name ∈ names))).map demoteField := by
  induction l with
  | nil => rfl
  | cons g t ih =>
      by_cases hg : g.name ∈ names
      · by_cases hgu : g.unique = true <;>
          simp [copyFields, List.filter, hg, hgu, demoteField, ih]
      · simp [copyFields, List.filter, hg, ih]

/-!  Claim theorems. -/

/-- C1: evaluation at a translation model declaring
`unique_together = (('title', 'body'),)` — the derived constraint set does
NOT contain the pair `('i18n_source', 'i18n_language')` as a constraint: the
`+=` branch flattens it into two bare strings, so the claimed invariant-backing
constraint is absent from the derived schema. -/
theorem pair_constraint_lost_on_declared_tuples :
    ∃ res, i18nNew [] [] "ArticleI18N" (some metaUT) = .ok res ∧
      srcLangTup ∉ res.unique_together :=
  ⟨_, rfl, by decide⟩

/-- C2: evaluation of the full derivation at the same input — when the new
type declares its own list of constraint tuples, the code appends the two
bare strings `'i18n_source'` and `'i18n_language'` to the declared tuple
instead of appending `('i18n_source', 'i18n_language')` as one two-field
constraint. -/
theorem unique_together_flattened_eval :
    i18nNew [] [] "ArticleI18N" (some metaUT) =
      .ok { source := articleModel, usedNames := ["title", "body"],
            copiedFields := articleModel.fields, demotedUnique := [],
            unique_together := [UTItem.tup ["title", "body"],
              UTItem.str "i18n_source", UTItem.str "i18n_language"] } := rfl

/-- C3: every copied field that was declared globally unique on the source is
copied with its single-field uniqueness flag cleared, and the constraint
`('i18n_language', field)` is appended to the final constraint set. -/
theorem unique_field_demoted (sourceFields : List Field) (names : List String)
    (declared : Option (List UTItem)) (res : List UTItem) (f : Field)
    (hf : f ∈ sourceFields) (hu : f.unique = true) (hn : f.name ∈ names)
    (hok : computeUniqueTogether declared (copyFields sourceFields names).2 =
      .ok res) :
    { f with unique := false } ∈ (copyFields sourceFields names).1 ∧
      UTItem.tup ["i18n_language", f.name] ∈ res := by
  obtain ⟨h1, h2⟩ := copyFields_mem sourceFields names f hf hu hn
  exact ⟨h1, computeUT_mem declared _ res f.name h2 hok⟩

/-- Witness for C3 at a concrete unique slug field. -/
theorem unique_field_demoted_witness :
    ((⟨"slug", FType.slugField, true⟩ : Field) ∈ slugFields ∧
      (⟨"slug", FType.slugField, true⟩ : Field).unique = true ∧
      ("slug" : String) ∈ ["slug"] ∧
      computeUniqueTogether none (copyFields slugFields ["slug"]).2 =
        .ok utSlug) ∧
    ({ (⟨"slug", FType.slugField, true⟩ : Field) with unique := false } ∈
        (copyFields slugFields ["slug"]).1 ∧
      UTItem.tup ["i18n_language", "slug"] ∈ utSlug) :=
  ⟨⟨by decide, rfl, by decide, rfl⟩,
    unique_field_demoted slugFields ["slug"] none utSlug _ (by decide) rfl
      (by decide) rfl⟩

/-- C4: with non-empty updates `translate` upserts on `(source, language)`,
so two successive calls with different values for the same content attribute
leave exactly one matching row, holding the second value. -/
theorem translate_last_write_wins (db : List Row) (src lg k v1 v2 : String)
    (hk : specialKey k = false)
    (hcount : (db.filter (fun x => rowMatches x src lg)).length ≤ 1) :
    ∃ db1 r1 db2 r2,
      translate db src lg [(k, v1)] = .ok (db1, r1) ∧
      translate db1 src lg [(k, v2)] = .ok (db2, r2) ∧
      db2.filter (fun x => rowMatches x src lg) = [r2] ∧
      getAttrRow r2 k = some v2 := by
  match hfd : db.filter (fun x => rowMatches x src lg) with
  | [] =>
      have hr1 : applyUpdates ⟨src, lg, []⟩ [(k, v1)] =
          setAttrRow ⟨src, lg, []⟩ k v1 := rfl
      have hm1 : rowMatches (applyUpdates ⟨src, lg, []⟩ [(k, v1)]) src lg = true := by
        rw [hr1, rowMatches_setAttrRow _ k v1 src lg hk]
        simp [rowMatches]
      have hc1 : translate db src lg [(k, v1)] =
          .ok (db ++ [applyUpdates ⟨src, lg, []⟩ [(k, v1)]],
            applyUpdates ⟨src, lg, []⟩ [(k, v1)]) := by
        simp [translate, objectsGet, hfd, objectsCreate, hk]
      have hf1 : (db ++ [applyUpdates ⟨src, lg, []⟩ [(k, v1)]]).filter
          (fun x => rowMatches x src lg) =
          [applyUpdates ⟨src, lg, []⟩ [(k, v1)]] := by
        rw [List.filter_append, hfd]
        simp [List.filter, hm1]
      obtain ⟨h2a, h2b, h2c, _⟩ :=
        translate_update_once (db ++ [applyUpdates ⟨src, lg, []⟩ [(k, v1)]])
          src lg k v2 _ hk hf1
      exact ⟨_, _, _, _, hc1, h2a, h2b, h2c⟩
  | [r] =>
      obtain ⟨h1a, h1b, _, _⟩ := translate_update_once db src lg k v1 r hk hfd
      obtain ⟨h2a, h2b, h2c, _⟩ :=
        translate_update_once (saveRow db src lg (applyUpdates r [(k, v1)]))
          src lg k v2 _ hk h1b
      exact ⟨_, _, _, _, h1a, h2a, h2b, h2c⟩
  | a :: b :: t =>
      rw [hfd] at hcount
      simp at hcount

/-- Witness for C4 on an initially empty database. -/
theorem translate_last_write_wins_witness :
    (specialKey "title" = false ∧
      (([] : List Row).filter (fun x => rowMatches x "1" "de")).length ≤ 1) ∧
    (∃ db1 r1 db2 r2,
      translate [] "1" "de" [("title", "X")] = .ok (db1, r1) ∧
      translate db1 "1" "de" [("title", "Y")] = .ok (db2, r2) ∧
      db2.filter (fun x => rowMatches x "1" "de") = [r2] ∧
      getAttrRow r2 "title" = some "Y") :=
  ⟨⟨rfl, by decide⟩,
    translate_last_write_wins [] "1" "de" "title" "X" "Y" rfl (by decide)⟩

/-- C5 counterexample: with the Language Set
`[('en','English'), ('de','German'), ('pt-br','Portuguese')]` the manager
generation loop also installs an accessor named `en` — the claim that no
accessor exists for the default language is false (the loop iterates all of
`settings.LANGUAGES` with no exclusion). -/
theorem default_language_accessor_exists :
    ¬ getA (buildAccessors languages3) "en" = none := by decide

/-- C5 amended: the manager exposes accessors `de` and `pt_br` (dash replaced
by underscore) AND an accessor `en` for the default language as well. -/
theorem accessors_include_default :
    getA (buildAccessors languages3) "de" = some "de" ∧
    getA (buildAccessors languages3) "pt_br" = some "pt-br" ∧
    getA (buildAccessors languages3) "en" = some "en" :=
  ⟨rfl, rfl, rfl⟩

/-- C6 counterexample: an explicit `translation_fields = ('body', 'title',
'missing')` naming a field absent from the source neither fails with
ImproperlyConfigured nor preserves the given order — class construction
succeeds, the absent name is silently ignored and the fields are copied in
source declaration order (`title` before `body`). -/
theorem missing_field_name_ignored :
    ∃ res, i18nNew [] [] "Whatever" (some metaExplicitFields) = .ok res ∧
      res.copiedFields.map Field.name = ["title", "body"] :=
  ⟨_, rfl, rfl⟩

/-- C6 amended: a non-empty explicit `translation_fields` is used verbatim as
the selection set; fields are copied in source declaration order restricted
to the listed names, names absent from the source are silently ignored, and
no error is raised on their account. -/
theorem explicit_fields_selection (src : SModel) (names : List String)
    (nm : String) (hne : names ≠ []) :
    i18nNew [] [] nm
        (some { source_model := some (.direct src),
                translation_fields := names, unique_together := none }) =
      .ok { source := src, usedNames := names,
            copiedFields :=
              (src.fields.filter (fun f => decide (f.name ∈ names))).map
                demoteField,
            demotedUnique := (copyFields src.fields names).2,
            unique_together :=
              [srcLangTup] ++ (copyFields src.fields names).2.map
                (fun f => UTItem.tup ["i18n_language", f]) } := by
  unfold i18nNew resolveSource
  simp [hne, computeUniqueTogether, utStep1, copyFields_fst]

/-- Witness for C6 at the two-field source and a reversed-order list with an
absent name. -/
theorem explicit_fields_selection_witness :
    (["body", "title", "missing"] ≠ ([] : List String)) ∧
    i18nNew [] [] "Whatever"
        (some { source_model := some (.direct pageModel),
                translation_fields := ["body", "title", "missing"],
                unique_together := none }) =
      .ok { source := pageModel, usedNames := ["body", "title", "missing"],
            copiedFields :=
              (pageModel.fields.filter
                (fun f => decide (f.name ∈ ["body", "title", "missing"]))).map
                demoteField,
            demotedUnique := (copyFields pageModel.fields
              ["body", "title", "missing"]).2,
            unique_together :=
              [srcLangTup] ++ (copyFields pageModel.fields
                ["body", "title", "missing"]).2.map
                (fun f => UTItem.tup ["i18n_language", f]) } :=
  ⟨by decide,
    explicit_fields_selection pageModel ["body", "title", "missing"]
      "Whatever" (by decide)⟩

/-- C7 counterexample: with an empty registry, `source_model = 'app.Missing'`
and a derived class named `FooI18N`, the failed registry lookup does not
raise — resolution silently falls back to the `I18N`-suffix convention and
resolves `Foo` from the defining module. -/
theorem dotted_miss_falls_back_to_suffix :
    resolveSource [] [("Foo", fooModel)]
      (some (.byName "app.Missing")) "FooI18N" = .ok fooModel := rfl

/-- C7 amended: a dotted `source_model` string whose registry lookup finds
nothing fails with ImproperlyConfigured only when the derived type's name
does not end with `I18N`; with the suffix, resolution falls back to the
naming convention instead. -/
theorem dotted_miss_without_suffix_raises
    (registry : List (String × String × SModel))
    (module : List (String × SModel)) (s nm : String)
    (hs : s ≠ "")
    (hdot : s.data.contains '.' = true)
    (hmiss : getModelReg registry ((dotParts s).headD "")
      (((dotParts s).drop 1).headD "") = none)
    (hsuf : endsI18N nm = false) :
    resolveSource registry module (some (.byName s)) nm =
      .error .improperlyConfigured := by
  have hdot2 : '.' ∈ s.data := by simpa using hdot
  have hmiss2 : getModelReg registry ((dotParts s).head?.getD "")
      ((dotParts s)[1]?.getD "") = none := by simpa using hmiss
  unfold resolveSource
  simp [hs, hdot2, hmiss2, hsuf]

/-- Witness for C7 amended at `'app.Missing'` and a suffix-free class name. -/
theorem dotted_miss_without_suffix_raises_witness :
    (("app.Missing" : String) ≠ "" ∧
      "app.Missing".data.contains '.' = true ∧
      getModelReg [] ((dotParts "app.Missing").headD "")
        (((dotParts "app.Missing").drop 1).headD "") = none ∧
      endsI18N "Foo" = false) ∧
    resolveSource [] [] (some (.byName "app.Missing")) "Foo" =
      .error .improperlyConfigured :=
  ⟨⟨by decide, rfl, rfl, rfl⟩,
    dotted_miss_without_suffix_raises [] [] "app.Missing" "Foo"
      (by decide) rfl rfl rfl⟩

/-- C8 counterexample, refuting the claim at two configured codes.  First,
with `LANGUAGES = [('pt-br','A'), ('pt_br','B')]` both codes normalize to the
accessor name `pt_br`; the later `setattr` overwrites the earlier method, so
the accessor no longer returns the same result as `lang('pt-br')` even
though `'pt-br'` is in the configured Language Set.  Second, for a configured
empty code the generated accessor filters on `''` itself, while `lang('')`
falls back to the active language through Python's falsy `or`, so the two
differ whenever the active language has rows. -/
theorem accessor_lang_equivalence_fails :
    (("pt-br", "A") ∈ langsCex ∧
      accessorCall langsCex (replaceDash "pt-br") dbCex ≠
        some (lang dbCex (some "pt-br") "en")) ∧
    (("", "Empty") ∈ langsEmpty ∧
      accessorCall langsEmpty (replaceDash "") dbDe ≠
        some (lang dbDe (some "") "de")) := by
  exact ⟨⟨by decide, by decide⟩, ⟨by decide, by decide⟩⟩

/-- C8 amended: for every non-empty configured language code whose normalized
accessor name is not also produced by a different configured code, the
manager has an accessor under the normalized name and calling it returns
exactly `lang(code)`.  (Both provisos are forced by the counterexample: a
name collision lets the later `setattr` overwrite the accessor, and for the
empty code the accessor filters on `''` while `lang('')` falls back to the
active language.) -/
theorem accessor_equals_lang (languages : List (String × String))
    (code : String) (db : List Row) (current : String)
    (hmem : code ∈ languages.map Prod.fst)
    (hcode : code ≠ "")
    (hinj : ∀ p ∈ languages, replaceDash p.1 = replaceDash code → p.1 = code) :
    accessorCall languages (replaceDash code) db =
      some (lang db (some code) current) := by
  have h1 : getA (buildAccessors languages) (replaceDash code) = some code := by
    rw [buildAccessors, getA_foldl_setA]
    cases hfind : languages.reverse.find?
        (fun l => replaceDash l.1 == replaceDash code) with
    | some l =>
        have hl : l ∈ languages :=
          List.mem_reverse.mp (List.mem_of_find?_eq_some hfind)
        have hpred : replaceDash l.1 = replaceDash code := by
          have := List.find?_some hfind
          simpa using this
        simp [hinj l hl hpred]
    | none =>
        exfalso
        obtain ⟨p, hp, hp1⟩ := List.mem_map.mp hmem
        have := List.find?_eq_none.mp hfind p (List.mem_reverse.mpr hp)
        rw [hp1] at this
        simp at this
  simp [accessorCall, h1, lang, effLang, hcode, filterLang]

/-- Witness for C8 amended at the one-language set `[('de','German')]`. -/
theorem accessor_equals_lang_witness :
    (("de" : String) ∈ ([("de", "German")] :
        List (String × String)).map Prod.fst ∧
      ("de" : String) ≠ "" ∧
      (∀ p ∈ ([("de", "German")] : List (String × String)),
        replaceDash p.1 = replaceDash "de" → p.1 = "de")) ∧
    accessorCall [("de", "German")] (replaceDash "de") dbDe =
      some (lang dbDe (some "de") "en") :=
  ⟨⟨by decide, by decide, by decide⟩,
    accessor_equals_lang [("de", "German")] "de" dbDe "en" (by decide)
      (by decide) (by decide)⟩

/-- C9: the `translate` template tag returns the unique translation row when
the resolved language is not the default and exactly one row matches it, and
returns the original object when the resolved language is the default or
when the lookup fails (zero or several matches) — no error propagates. -/
theorem tag_translate_spec (translations : List Row) (language : Option String)
    (current dflt : String) :
    (effLang language current = dflt →
      tagTranslate translations language current dflt = .inl ()) ∧
    (effLang language current ≠ dflt →
      (∀ r, filterLang translations (effLang language current) = [r] →
        tagTranslate translations language current dflt = .inr r) ∧
      ((∀ r, filterLang translations (effLang language current) ≠ [r]) →
        tagTranslate translations language current dflt = .inl ())) := by
  refine ⟨fun h => by simp [tagTranslate, h], fun h => ⟨?_, ?_⟩⟩
  · intro r hr
    simp [tagTranslate, h, hr]
  · intro hall
    unfold tagTranslate
    simp only [if_neg h]

/-- Witness for C9: a non-default language with exactly one matching row. -/
theorem tag_translate_spec_witness :
    (effLang (some "de") "x" ≠ "en" ∧
      filterLang [⟨"1", "de", [("title", "Hallo")]⟩] (effLang (some "de") "x") =
        [⟨"1", "de", [("title", "Hallo")]⟩]) ∧
    tagTranslate [⟨"1", "de", [("title", "Hallo")]⟩] (some "de") "x" "en" =
      .inr ⟨"1", "de", [("title", "Hallo")]⟩ :=
  ⟨⟨by decide, rfl⟩,
    ((tag_translate_spec [⟨"1", "de", [("title", "Hallo")]⟩] (some "de")
        "x" "en").2 (by decide)).1 _ rfl⟩

/-- C10: when a row for `(source, language)` exists and the updates are
non-empty, `translate` persists exactly the updated row: attributes not named
in the updates — including `i18n_source` and `i18n_language` — keep their
previous values in the returned row, and every non-matching database row is
left in place. -/
theorem translate_update_frame (db : List Row) (src lg : String)
    (updates : List (String × String)) (r : Row)
    (hne : updates ≠ [])
    (hfind : db.filter (fun x => rowMatches x src lg) = [r]) :
    translate db src lg updates =
      .ok (saveRow db src lg (applyUpdates r updates), applyUpdates r updates) ∧
    (∀ q, q ∉ updates.map Prod.fst →
      getAttrRow (applyUpdates r updates) q = getAttrRow r q) ∧
    (∀ x ∈ db, rowMatches x src lg = false →
      x ∈ saveRow db src lg (applyUpdates r updates)) := by
  refine ⟨?_, ?_, ?_⟩
  · cases updates with
    | nil => exact absurd rfl hne
    | cons u t => simp [translate, objectsGet, hfind]
  · intro q hq
    exact getAttrRow_applyUpdates_not_mem updates r q hq
  · intro x hx hmx
    unfold saveRow
    exact List.mem_map.mpr ⟨x, hx, by simp [hmx]⟩

/-- Witness for C10: updating `title` on an existing `de` row leaves `body`,
`i18n_source` and `i18n_language` untouched. -/
theorem translate_update_frame_witness :
    (([("title", "X")] : List (String × String)) ≠ [] ∧
      dbDe.filter (fun x => rowMatches x "1" "de") = [rowDe]) ∧
    (getAttrRow (applyUpdates rowDe [("title", "X")]) "body" =
        getAttrRow rowDe "body" ∧
      getAttrRow (applyUpdates rowDe [("title", "X")]) "i18n_language" =
        getAttrRow rowDe "i18n_language") :=
  ⟨⟨by decide, rfl⟩,
    ⟨(translate_update_frame dbDe "1" "de" [("title", "X")] rowDe
        (by decide) rfl).2.1 "body" (by decide),
      (translate_update_frame dbDe "1" "de" [("title", "X")] rowDe
        (by decide) rfl).2.1 "i18n_language" (by decide)⟩⟩

end I18nModel
